import Mathlib

/-!
Verification of the ferrer resource-location runtime core.

The definitions below are a shallow embedding of the TypeScript sources:
  * `matchesRecord` / `matchesArrayPattern` — src/packages/ferrer/src/pattern-matching.ts
    (`matchesRecord` models the source function `matches`, whose name is reserved in Lean)
  * `BasicRegistry.match` / `RegistryResolver.resolve` — src/packages/ferrer/src/provider.ts
  * `hashName` — src/unnamed/part_006 (JSON.stringify with sorted object keys)
  * `Lifecycle` (cache, dispose, run retry loop) — src/unnamed/part_009
  * `BaseContext` / `BasicDomain.createContext` — src/packages/ferrer/src/provider.ts
  * `FunctionElement.getAtom` — src/packages/ferrer/src/provider.ts
  * error transience taxonomy — src/packages/ferrer/src/errors.ts

JSON numbers are modelled as integers: none of the verified properties
depends on floating-point behaviour, only on (dis)equality of primitives.
-/

namespace Ferrer

/-- A serializable JSON value (`SerializableValue` in packages/utils/src/objects.ts).
Objects are ordered association lists of string keys, mirroring JS objects,
which enumerate keys in insertion order and contain no duplicate key. -/
inductive Value where
  | null
  | bool (b : Bool)
  | num (n : Int)
  | str (s : String)
  | arr (elems : List Value)
  | obj (fields : List (String × Value))

/-- A `Name` (and a pattern) is a serializable record: the field list of a JS object
(`type Name = SerializableObject`, src/packages/ferrer/src/core-types.ts). -/
abbrev Name := List (String × Value)

/-- Key lookup in a JS object, modelling `key in obj` + `obj[key]` on the
field list. JS objects have unique keys, so the first match is the value. -/
def lookupField : List (String × Value) → String → Option Value
  | [], _ => none
  | (k, v) :: rest, key => if k = key then some v else lookupField rest key

/-- JS strict equality (`===`) as used by the scalar branch of the pattern
matcher. In that branch the pattern operand is always a primitive, and a
primitive is never strictly equal to an object or an array, so the flat
comparison below is exact. -/
def Value.strictEq : Value → Value → Bool
  | .null, .null => true
  | .bool a, .bool b => a == b
  | .num a, .num b => a == b
  | .str a, .str b => a == b
  | _, _ => false

/-! ## Pattern matcher (src/packages/ferrer/src/pattern-matching.ts)

`matchesRecord` iterates the keys of `pattern`; `matchesEntry` is the shared
per-value comparison chain (the body of the `for` loop in `matches` and of
the index loop in `matchesArrayPattern`, which duplicate the same logic);
`matchesElems` is the index loop of `matchesArrayPattern` after its length
guard. -/

mutual

/-- Determine if the given name matches the given pattern
(source function `matches`, pattern-matching.ts lines 7-40). -/
def matchesRecord : Name → Name → Bool
  | _, [] => true
  | name, (key, patternValue) :: rest =>
    match lookupField name key with
    | none => false
    | some objValue => matchesEntry objValue patternValue && matchesRecord name rest

/-- The per-value comparison: a record pattern value requires a record candidate
matched recursively; an array pattern value requires an array candidate of
equal length matched elementwise; otherwise strict equality. -/
def matchesEntry : Value → Value → Bool
  | objValue, .obj patternFields =>
    match objValue with
    | .obj objFields => matchesRecord objFields patternFields
    | _ => false
  | objValue, .arr patternElems =>
    match objValue with
    | .arr objElems => matchesArrayPattern objElems patternElems
    | _ => false
  | objValue, patternValue => Value.strictEq objValue patternValue

/-- Array pattern comparison (`matchesArrayPattern`, pattern-matching.ts
lines 42-81): equal length, then elementwise comparison. -/
def matchesArrayPattern (arr pattern : List Value) : Bool :=
  if arr.length = pattern.length then matchesElems arr pattern else false

/-- The elementwise loop of `matchesArrayPattern`. -/
def matchesElems : List Value → List Value → Bool
  | [], [] => true
  | o :: os, p :: ps => matchesEntry o p && matchesElems os ps
  | _, _ => false

end

example : matchesRecord [("job", .str "engineer"), ("age", .num 40)] [("job", .str "engineer")] = true := by
  simp [matchesRecord, matchesEntry, lookupField, Value.strictEq]

example : matchesRecord [("job", .str "engineer")] [("job", .str "trash man")] = false := by
  simp [matchesRecord, matchesEntry, lookupField, Value.strictEq]

example : matchesRecord [("a", .arr [.num 1, .num 2])] [("a", .arr [.num 1])] = false := by
  simp [matchesRecord, matchesEntry, matchesArrayPattern, matchesElems, lookupField, Value.strictEq]

example : matchesRecord [("x", .obj [("y", .num 1), ("z", .num 2)])] [("x", .obj [("y", .num 1)])] = true := by
  simp [matchesRecord, matchesEntry, lookupField, Value.strictEq]

example : matchesRecord [("anything", .num 3)] [] = true := by
  simp [matchesRecord]

/-! ## Specification-side matching relation (claim C4)

`ValueMatches` states the matching rule the way the specification words it:
a record-valued pattern entry requires a record candidate matched by the same
rule, an array-valued pattern entry requires an array candidate of equal
length matched elementwise by the same rule, and a scalar pattern entry
requires strict equality. -/

/-- Is the value a scalar (neither a record nor an array)? -/
def Value.isScalar : Value → Bool
  | .obj _ => false
  | .arr _ => false
  | _ => true

/-- The specification-side matching rule on individual values. -/
inductive ValueMatches : Value → Value → Prop where
  | scalar (v : Value) : v.isScalar = true → ValueMatches v v
  | arr (cs ps : List Value) (hlen : cs.length = ps.length)
      (helem : ∀ pr, pr ∈ cs.zip ps → ValueMatches pr.1 pr.2) :
      ValueMatches (.arr cs) (.arr ps)
  | obj (cfields pfields : List (String × Value))
      (hkeys : ∀ k pv, (k, pv) ∈ pfields → (lookupField cfields k).isSome = true)
      (hvals : ∀ k pv cv, (k, pv) ∈ pfields → lookupField cfields k = some cv →
        ValueMatches cv pv) :
      ValueMatches (.obj cfields) (.obj pfields)

theorem strictEq_iff_of_isScalar {ov pv : Value} (hs : pv.isScalar = true) :
    Value.strictEq ov pv = true ↔ ov = pv := by
  cases pv <;> cases ov <;>
    simp_all [Value.strictEq, Value.isScalar]

theorem matchesEntry_scalar {ov pv : Value} (hs : pv.isScalar = true) :
    matchesEntry ov pv = Value.strictEq ov pv := by
  cases pv <;> simp_all [matchesEntry, Value.isScalar]

theorem matchesRecord_iff_entries (c : Name) : ∀ p : Name,
    matchesRecord c p = true ↔
      ∀ k pv, (k, pv) ∈ p → ∃ cv, lookupField c k = some cv ∧ matchesEntry cv pv = true := by
  intro p
  induction p with
  | nil => simp [matchesRecord]
  | cons hd tl ih =>
    obtain ⟨key, pv⟩ := hd
    cases hov : lookupField c key with
    | none =>
      rw [matchesRecord, hov]
      constructor
      · intro h
        exact absurd h (by simp)
      · intro h
        obtain ⟨cv, hcv, _⟩ := h key pv (List.mem_cons_self _ _)
        rw [hov] at hcv
        exact absurd hcv (by simp)
    | some ov =>
      rw [matchesRecord, hov]
      simp only [Bool.and_eq_true, ih]
      constructor
      · rintro ⟨h1, h2⟩ k v hmem
        rcases List.mem_cons.mp hmem with heq | hmem2
        · injection heq with hk hv
          subst hk
          subst hv
          exact ⟨ov, hov, h1⟩
        · exact h2 k v hmem2
      · intro h
        obtain ⟨cv, hcv, hent⟩ := h key pv (List.mem_cons_self _ _)
        rw [hov] at hcv
        injection hcv with hcv
        subst hcv
        exact ⟨hent, fun k v hmem => h k v (List.mem_cons_of_mem _ hmem)⟩

theorem matchesElems_iff : ∀ cs ps : List Value,
    matchesElems cs ps = true ↔
      cs.length = ps.length ∧ ∀ pr, pr ∈ cs.zip ps → matchesEntry pr.1 pr.2 = true := by
  intro cs
  induction cs with
  | nil => intro ps; cases ps <;> simp [matchesElems]
  | cons o os ih =>
    intro ps
    cases ps with
    | nil => simp [matchesElems]
    | cons p ps =>
      rw [matchesElems]
      simp only [Bool.and_eq_true, ih, List.length_cons, List.zip_cons_cons]
      constructor
      · rintro ⟨h1, h2, h3⟩
        refine ⟨by omega, ?_⟩
        intro pr hpr
        rcases List.mem_cons.mp hpr with heq | hpr2
        · subst heq
          exact h1
        · exact h3 pr hpr2
      · rintro ⟨h1, h2⟩
        exact ⟨h2 (o, p) (List.mem_cons_self _ _), by omega,
          fun pr hpr => h2 pr (List.mem_cons_of_mem _ hpr)⟩

theorem matchesArrayPattern_iff (cs ps : List Value) :
    matchesArrayPattern cs ps = true ↔
      cs.length = ps.length ∧ ∀ pr, pr ∈ cs.zip ps → matchesEntry pr.1 pr.2 = true := by
  rw [matchesArrayPattern]
  split
  · rw [matchesElems_iff]
  · simp_all

theorem sizeOf_val_lt_of_mem_fields {k : String} {v : Value} {fs : List (String × Value)}
    (h : (k, v) ∈ fs) : sizeOf v < sizeOf (Value.obj fs) := by
  have h1 := List.sizeOf_lt_of_mem h
  simp only [Prod.mk.sizeOf_spec, Value.obj.sizeOf_spec] at *
  omega

theorem sizeOf_val_lt_of_mem_elems {v : Value} {vs : List Value}
    (h : v ∈ vs) : sizeOf v < sizeOf (Value.arr vs) := by
  have h1 := List.sizeOf_lt_of_mem h
  simp only [Value.arr.sizeOf_spec] at *
  omega

theorem matchesEntry_sound_scalar {ov pv : Value} (hs : pv.isScalar = true)
    (hm : matchesEntry ov pv = true) : ValueMatches ov pv := by
  rw [matchesEntry_scalar hs] at hm
  have hov : ov = pv := (strictEq_iff_of_isScalar hs).mp hm
  subst hov
  exact ValueMatches.scalar _ hs

theorem matchesEntry_sound : ∀ (n : Nat) (ov pv : Value), sizeOf pv ≤ n →
    matchesEntry ov pv = true → ValueMatches ov pv := by
  intro n
  induction n using Nat.strong_induction_on with
  | _ n ih =>
    intro ov pv hsize hm
    match pv with
    | .obj pfields =>
      match ov with
      | .obj cfields =>
        rw [matchesEntry] at hm
        have hrec := (matchesRecord_iff_entries cfields pfields).mp hm
        refine ValueMatches.obj _ _ ?_ ?_
        · intro k v hmem
          obtain ⟨cv, hcv, _⟩ := hrec k v hmem
          simp [hcv]
        · intro k v cv hmem hcv
          obtain ⟨cv', hcv', hent⟩ := hrec k v hmem
          rw [hcv] at hcv'
          cases hcv'
          have hlt : sizeOf v < sizeOf (Value.obj pfields) := sizeOf_val_lt_of_mem_fields hmem
          exact ih (sizeOf v) (by omega) cv v (le_refl _) hent
      | .null => simp [matchesEntry] at hm
      | .bool b => simp [matchesEntry] at hm
      | .num m => simp [matchesEntry] at hm
      | .str s => simp [matchesEntry] at hm
      | .arr os => simp [matchesEntry] at hm
    | .arr ps =>
      match ov with
      | .arr cs =>
        rw [matchesEntry] at hm
        obtain ⟨hlen, helem⟩ := (matchesArrayPattern_iff cs ps).mp hm
        refine ValueMatches.arr _ _ hlen ?_
        intro pr hpr
        have hmem2 : pr.2 ∈ ps := (List.of_mem_zip hpr).2
        have hlt : sizeOf pr.2 < sizeOf (Value.arr ps) := sizeOf_val_lt_of_mem_elems hmem2
        exact ih (sizeOf pr.2) (by omega) pr.1 pr.2 (le_refl _) (helem pr hpr)
      | .null => simp [matchesEntry] at hm
      | .bool b => simp [matchesEntry] at hm
      | .num m => simp [matchesEntry] at hm
      | .str s => simp [matchesEntry] at hm
      | .obj ofs => simp [matchesEntry] at hm
    | .null => exact matchesEntry_sound_scalar (by simp [Value.isScalar]) hm
    | .bool b => exact matchesEntry_sound_scalar (by simp [Value.isScalar]) hm
    | .num m => exact matchesEntry_sound_scalar (by simp [Value.isScalar]) hm
    | .str s => exact matchesEntry_sound_scalar (by simp [Value.isScalar]) hm

theorem valueMatches_complete : ∀ {ov pv : Value}, ValueMatches ov pv → matchesEntry ov pv = true := by
  intro ov pv h
  induction h with
  | scalar v hs =>
    rw [matchesEntry_scalar hs]
    exact (strictEq_iff_of_isScalar hs).mpr rfl
  | arr cs ps hlen helem ih =>
    rw [matchesEntry]
    exact (matchesArrayPattern_iff cs ps).mpr ⟨hlen, ih⟩
  | obj cf pf hkeys hvals ih =>
    rw [matchesEntry]
    refine (matchesRecord_iff_entries cf pf).mpr ?_
    intro k v hmem
    have hk := hkeys k v hmem
    cases hcv : lookupField cf k with
    | none => rw [hcv] at hk; exact absurd hk (by simp)
    | some cv => exact ⟨cv, rfl, ih k v cv hmem hcv⟩

/-- C4: for every candidate record and pattern record, `matches` returns true
iff every key of the pattern exists in the candidate and matches recursively
per the `ValueMatches` rule (record entries recurse, array entries require
equal length and elementwise matching, scalar entries require strict
equality, extra candidate keys are ignored); the empty pattern matches every
candidate. -/
theorem matches_characterization (c p : Name) :
    (matchesRecord c p = true ↔
      ∀ k pv, (k, pv) ∈ p → ∃ cv, lookupField c k = some cv ∧ ValueMatches cv pv) ∧
    matchesRecord c [] = true := by
  constructor
  · rw [matchesRecord_iff_entries]
    constructor
    · intro h k pv hmem
      obtain ⟨cv, hcv, hent⟩ := h k pv hmem
      exact ⟨cv, hcv, matchesEntry_sound (sizeOf pv) cv pv (le_refl _) hent⟩
    · intro h k pv hmem
      obtain ⟨cv, hcv, hvm⟩ := h k pv hmem
      exact ⟨cv, hcv, valueMatches_complete hvm⟩
  · rw [matchesRecord]

/-- Witness for C4 at a concrete candidate and pattern. -/
theorem matches_characterization_witness :
    ∃ cv, lookupField [("x", .obj [("y", .num 1), ("z", .num 2)]), ("w", .str "extra")] "x" = some cv ∧
      ValueMatches cv (.obj [("y", .num 1)]) := by
  have h := (matches_characterization
    [("x", .obj [("y", .num 1), ("z", .num 2)]), ("w", .str "extra")]
    [("x", .obj [("y", .num 1)])]).1.mp
    (by simp [matchesRecord, matchesEntry, lookupField, Value.strictEq])
  exact h "x" (.obj [("y", .num 1)]) (List.mem_cons_self _ _)

/-! ## Registry and resolver (src/packages/ferrer/src/provider.ts)

`Element` carries the resolved name it is registered under (the `name` field
of the `Element` interface in primitives/atoms.ts, used by the lifecycle's
trace event); the numeric `id` stands for the JS object identity of the
element. -/

/-- A capability factory bound into a registry. -/
structure Element where
  id : Nat
  name : Name

/-- Entry in a `Registry` (`type Registration = { name; element }`). -/
structure Registration where
  name : Name
  element : Element

/-- BasicRegistry.match (provider.ts lines 43-47): every registration whose
name satisfies the pattern, in registration order. -/
def registryMatch (registrations : List Registration) (pattern : Name) : List Registration :=
  registrations.flatMap (fun reg => if matchesRecord reg.name pattern then [reg] else [])

/-- RegistryResolver.resolve (provider.ts lines 65-68): filter the match list
with the caller-supplied predicate and return the first result, or none
(`results[0] ?? undefined`). -/
def RegistryResolver.resolve (registrations : List Registration)
    (filter : Registration → Bool) (pattern : Name) : Option Registration :=
  ((registryMatch registrations pattern).filter filter).head?

/-- C5: resolve returns the first-registered registration that matches the
pattern and passes the filter; in particular it is a pure function of the
registration list (repeated resolutions of the same pattern on the unchanged
registry agree), and it returns none exactly when no registration matches. -/
theorem resolve_first_registered (registrations : List Registration)
    (filter : Registration → Bool) (pattern : Name) :
    RegistryResolver.resolve registrations filter pattern =
      registrations.find? (fun reg => matchesRecord reg.name pattern && filter reg) ∧
    (RegistryResolver.resolve registrations filter pattern = none ↔
      ∀ reg ∈ registrations, ¬(matchesRecord reg.name pattern = true ∧ filter reg = true)) := by
  have hfind : RegistryResolver.resolve registrations filter pattern =
      registrations.find? (fun reg => matchesRecord reg.name pattern && filter reg) := by
    induction registrations with
    | nil => rfl
    | cons reg rest ih =>
      rw [RegistryResolver.resolve, registryMatch] at *
      simp only [List.flatMap_cons]
      by_cases hm : matchesRecord reg.name pattern
      · by_cases hf : filter reg
        · simp [hm, hf, List.find?_cons]
        · simp only [hm, if_true, List.singleton_append, List.filter_cons]
          rw [List.find?_cons]
          simp only [hm, hf, Bool.and_false]
          simpa [RegistryResolver.resolve, registryMatch] using ih
      · simp only [hm, if_false, List.nil_append]
        rw [List.find?_cons]
        simp only [hm, Bool.false_and]
        simpa [RegistryResolver.resolve, registryMatch] using ih
  refine ⟨hfind, ?_⟩
  rw [hfind, List.find?_eq_none]
  constructor
  · intro h reg hmem hcontra
    exact h reg hmem (by simp [hcontra.1, hcontra.2])
  · intro h reg hmem hcontra
    simp only [Bool.and_eq_true] at hcontra
    exact h reg hmem hcontra

/-! ## hashName (src/unnamed/part_006)

`hashName(name)` is `JSON.stringify(name, replacer)` where the replacer maps
every plain object to a copy whose keys are inserted in sorted order, so the
emitted string lists the entries of every (nested) object in ascending key
order. JS objects have unique keys, so sorting the `(key, value)` field list
by key is the same as sorting `Object.keys` and looking each key up. -/

/-- JSON string quoting as performed by JSON.stringify. Control-character
escapes are elided: no verified claim depends on them. -/
def quoteJson (s : String) : String :=
  "\"" ++ String.join (s.toList.map (fun c =>
    if c = '\\' then "\\\\" else if c = '"' then "\\\"" else String.singleton c)) ++ "\""

/-- Field order used by the replacer: ascending key order. -/
def fieldLe (x y : String × Value) : Prop := x.1 ≤ y.1

instance : DecidableRel fieldLe := fun x y => inferInstanceAs (Decidable (x.1 ≤ y.1))

instance : IsTotal (String × Value) fieldLe := ⟨fun a b => le_total a.1 b.1⟩

instance : IsTrans (String × Value) fieldLe := ⟨fun _ _ _ hab hbc => le_trans hab hbc⟩

/-- Sort an object's fields by key, modelling `Object.keys(val).sort()`
followed by the reduce that re-inserts each key (every total sort of the
unique keys yields this same list). -/
def sortFields (fs : List (String × Value)) : List (String × Value) :=
  List.insertionSort fieldLe fs

theorem perm_sizeOf_eq {α : Type} [SizeOf α] {l₁ l₂ : List α} (h : l₁.Perm l₂) :
    sizeOf l₁ = sizeOf l₂ := by
  induction h with
  | nil => rfl
  | cons x _ ih => simp [ih]
  | swap x y l => simp; omega
  | trans _ _ ih₁ ih₂ => omega

theorem sizeOf_sortFields (fs : List (String × Value)) : sizeOf (sortFields fs) = sizeOf fs :=
  perm_sizeOf_eq (List.perm_insertionSort fieldLe fs)

mutual

/-- Serialization of a value by `JSON.stringify` with the key-sorting
replacer of `hashName`. -/
def hashValue : Value → String
  | .null => "null"
  | .bool b => if b then "true" else "false"
  | .num n => toString n
  | .str s => quoteJson s
  | .arr elems => "[" ++ String.intercalate "," (hashElems elems) ++ "]"
  | .obj fields => "\x7b" ++ String.intercalate "," (hashFields (sortFields fields)) ++ "\x7d"
termination_by v => sizeOf v
decreasing_by
  all_goals simp only [Value.arr.sizeOf_spec, Value.obj.sizeOf_spec, sizeOf_sortFields]
  all_goals omega

/-- Elementwise serialization of an array. -/
def hashElems : List Value → List String
  | [] => []
  | v :: vs => hashValue v :: hashElems vs
termination_by vs => sizeOf vs
decreasing_by
  all_goals simp only [List.cons.sizeOf_spec]
  all_goals omega

/-- Entrywise serialization of an object's (already sorted) fields. -/
def hashFields : List (String × Value) → List String
  | [] => []
  | (k, v) :: rest => (quoteJson k ++ ":" ++ hashValue v) :: hashFields rest
termination_by fs => sizeOf fs
decreasing_by
  all_goals simp only [List.cons.sizeOf_spec, Prod.mk.sizeOf_spec]
  all_goals omega

end

/-- The hashName function (src/unnamed/part_006 lines 32-43). -/
def hashName (name : Name) : String := hashValue (.obj name)

/-! ## Key-order independence of hashName (claim C10) -/

/-- Two values that contain the same key-value pairs, recursively, with keys
possibly enumerated in different orders in every nested plain object. -/
inductive SameJson : Value → Value → Prop where
  | scalar (v : Value) : v.isScalar = true → SameJson v v
  | arr (cs ps : List Value) (hlen : cs.length = ps.length)
      (helem : ∀ pr, pr ∈ cs.zip ps → SameJson pr.1 pr.2) :
      SameJson (.arr cs) (.arr ps)
  | obj (fs gs : List (String × Value))
      (hnf : (fs.map Prod.fst).Nodup) (hng : (gs.map Prod.fst).Nodup)
      (hperm : (fs.map Prod.fst).Perm (gs.map Prod.fst))
      (hlook : ∀ k v w, lookupField fs k = some v → lookupField gs k = some w →
        SameJson v w) :
      SameJson (.obj fs) (.obj gs)

theorem lookupField_eq_of_mem {fs : List (String × Value)} (hnd : (fs.map Prod.fst).Nodup)
    {k : String} {v : Value} (h : (k, v) ∈ fs) : lookupField fs k = some v := by
  induction fs with
  | nil => cases h
  | cons hd tl ih =>
    obtain ⟨k0, v0⟩ := hd
    simp only [List.map_cons, List.nodup_cons] at hnd
    rcases List.mem_cons.mp h with heq | hmem
    · injection heq with h1 h2
      subst h1
      subst h2
      simp [lookupField]
    · rw [lookupField]
      by_cases hk : k0 = k
      · subst hk
        have : k0 ∈ tl.map Prod.fst := by
          simpa using List.mem_map_of_mem Prod.fst hmem
        exact absurd this hnd.1
      · simp only [hk, if_false]
        exact ih hnd.2 hmem

theorem mem_sortFields {fs : List (String × Value)} {x : String × Value} :
    x ∈ sortFields fs ↔ x ∈ fs :=
  (List.perm_insertionSort fieldLe fs).mem_iff

theorem sortFields_keys_sorted (fs : List (String × Value)) :
    List.Sorted (· ≤ ·) ((sortFields fs).map Prod.fst) := by
  have hs : List.Sorted fieldLe (sortFields fs) := List.sorted_insertionSort fieldLe fs
  exact List.pairwise_map.mpr hs

theorem sortFields_keys_eq {fs gs : List (String × Value)}
    (hperm : (fs.map Prod.fst).Perm (gs.map Prod.fst)) :
    (sortFields fs).map Prod.fst = (sortFields gs).map Prod.fst := by
  have h1 : ((sortFields fs).map Prod.fst).Perm (fs.map Prod.fst) :=
    (List.perm_insertionSort fieldLe fs).map Prod.fst
  have h2 : ((sortFields gs).map Prod.fst).Perm (gs.map Prod.fst) :=
    (List.perm_insertionSort fieldLe gs).map Prod.fst
  exact List.eq_of_perm_of_sorted (h1.trans (hperm.trans h2.symm))
    (sortFields_keys_sorted fs) (sortFields_keys_sorted gs)

theorem hashElems_congr : ∀ (cs ps : List Value), cs.length = ps.length →
    (∀ pr, pr ∈ cs.zip ps → hashValue pr.1 = hashValue pr.2) →
    hashElems cs = hashElems ps := by
  intro cs
  induction cs with
  | nil =>
    intro ps hlen _
    cases ps with
    | nil => rfl
    | cons p ps => simp at hlen
  | cons c cs ih =>
    intro ps hlen hh
    cases ps with
    | nil => simp at hlen
    | cons p ps =>
      rw [hashElems, hashElems]
      rw [hh (c, p) (by simp [List.zip_cons_cons])]
      rw [ih ps (by simpa using hlen)
        (fun pr hpr => hh pr (by simp only [List.zip_cons_cons]; exact List.mem_cons_of_mem _ hpr))]

theorem hashFields_congr : ∀ (l₁ l₂ : List (String × Value)),
    l₁.map Prod.fst = l₂.map Prod.fst →
    (∀ k v w, (k, v) ∈ l₁ → (k, w) ∈ l₂ → hashValue v = hashValue w) →
    hashFields l₁ = hashFields l₂ := by
  intro l₁
  induction l₁ with
  | nil =>
    intro l₂ hk _
    cases l₂ with
    | nil => rfl
    | cons hd tl => simp at hk
  | cons hd tl ih =>
    intro l₂ hk hvw
    cases l₂ with
    | nil => simp at hk
    | cons hd2 tl2 =>
      obtain ⟨k1, v1⟩ := hd
      obtain ⟨k2, v2⟩ := hd2
      simp only [List.map_cons, List.cons.injEq] at hk
      obtain ⟨hkk, hktl⟩ := hk
      subst hkk
      rw [hashFields, hashFields]
      rw [hvw k1 v1 v2 (List.mem_cons_self _ _) (List.mem_cons_self _ _)]
      rw [ih tl2 hktl
        (fun k v w hv hw => hvw k v w (List.mem_cons_of_mem _ hv) (List.mem_cons_of_mem _ hw))]

theorem sameJson_hashValue {a b : Value} (h : SameJson a b) : hashValue a = hashValue b := by
  induction h with
  | scalar v _ => rfl
  | arr cs ps hlen _ ih =>
    rw [hashValue, hashValue]
    rw [hashElems_congr cs ps hlen ih]
  | obj fs gs hnf hng hperm _ ih =>
    rw [hashValue, hashValue]
    have hkeys := sortFields_keys_eq hperm
    rw [hashFields_congr (sortFields fs) (sortFields gs) hkeys ?_]
    intro k v w hv hw
    exact ih k v w
      (lookupField_eq_of_mem hnf (mem_sortFields.mp hv))
      (lookupField_eq_of_mem hng (mem_sortFields.mp hw))

/-- C10: hashName yields character-for-character identical strings on two
Name records that contain the same key-value pairs, recursively, with keys
enumerated in different orders; being a plain function of its argument, it is
deterministic. -/
theorem hashName_order_independent {a b : Name} (h : SameJson (.obj a) (.obj b)) :
    hashName a = hashName b :=
  sameJson_hashValue h

/-- Witness for C10: two concrete records with reordered keys hash alike. -/
theorem hashName_order_independent_witness :
    hashName [("b", .num 2), ("a", .obj [("y", .num 1), ("x", .null)])] =
      hashName [("a", .obj [("x", .null), ("y", .num 1)]), ("b", .num 2)] := by
  apply hashName_order_independent
  refine SameJson.obj _ _ (by decide) (by decide) ?_ ?_
  · exact List.Perm.swap "a" "b" []
  · intro k v w hv hw
    by_cases hb : k = "b"
    · subst hb
      simp [lookupField] at hv hw
      subst hv
      subst hw
      exact SameJson.scalar _ rfl
    · by_cases ha : k = "a"
      · subst ha
        simp [lookupField] at hv hw
        subst hv
        subst hw
        refine SameJson.obj _ _ (by decide) (by decide) ?_ ?_
        · exact List.Perm.swap "x" "y" []
        · intro k v w hv hw
          by_cases hy : k = "y"
          · subst hy
            simp [lookupField] at hv hw
            subst hv
            subst hw
            exact SameJson.scalar _ rfl
          · by_cases hx : k = "x"
            · subst hx
              simp [lookupField] at hv hw
              subst hv
              subst hw
              exact SameJson.scalar _ rfl
            · have hy2 : ¬("y" = k) := fun h => hy h.symm
              have hx2 : ¬("x" = k) := fun h => hx h.symm
              simp [lookupField, hy2, hx2] at hv
      · have hb2 : ¬("b" = k) := fun h => hb h.symm
        have ha2 : ¬("a" = k) := fun h => ha h.symm
        simp [lookupField, hb2, ha2] at hv

/-! ## Error taxonomy (src/packages/ferrer/src/errors.ts) -/

/-- The errors that can flow through `Lifecycle.run`. Application errors carry
an id (standing for the JS error object) and their structural `isTransient`
marker. `combined` is the error built by `RetryController.combinedError`. -/
inductive RunError where
  | earlyDisposal
  | unresolvedPattern (pattern : Name)
  | appError (id : Nat) (transient : Bool)
  | combined

/-- isTransientError (errors.ts lines 4-14): an error is transient iff it
exposes a truthy `isTransient` marker. `UnresolvedPatternError` sets it to
true, `EarlyDisposalError` and `FerrerError` default it to false, and plain
errors (`combined` included) do not carry it. -/
def isTransientError : RunError → Bool
  | .earlyDisposal => false
  | .unresolvedPattern _ => true
  | .appError _ transient => transient
  | .combined => false

/-! ## Trace vectors (src/packages/ferrer/src/primitives/tracing.ts) -/

/-- A trace event; only `domainCall` is emitted by this core. -/
inductive TraceEvent where
  | ingressCall
  | domainCall (resolvedName : Name)
  | ingressReturn
  | egressCall
  | egressReturn

/-- An append-only call-path record. -/
abbrev TraceVector := List TraceEvent

/-! ## Lifecycle (src/unnamed/part_009)

The lifecycle interacts with its surroundings at three suspension points:
`context.resolver.resolve`, `element.getAtom` and the `atomImpl` invocation.
The model makes those interactions a parameter (`Env`), indexed by how many
times the lifecycle has performed each of them, which lets a single `Env`
describe behaviours such as "unresolved on the first attempt, resolvable on
the second". The execution is single-threaded (the reference runtime is
cooperatively scheduled), so the disposed flag can only change between
`run` calls; the disposal re-checks after each suspension point are kept in
the model but cannot observe a mid-run change. -/

/-- The JS object identity of an `AtomImpl` obtained from an element. The
lifecycle treats it as opaque: it is stored in the cache, disposed, and
invoked through the environment. -/
structure AtomImpl where
  id : Nat

/-- A per-invocation execution context as seen by the lifecycle: its resolver
and its trace vector (`Context` in primitives/atoms.ts). -/
structure Context where
  resolverId : Nat
  trace : TraceVector

/-- The result of resolving a pattern (`type Resolution = { name; element }`). -/
structure Resolution where
  name : Name
  element : Element

/-- Behaviour of the lifecycle's collaborators, indexed by call count. -/
structure Env where
  resolveBeh : Nat → Option Resolution
  getAtomBeh : Nat → Except RunError AtomImpl
  invokeBeh : Nat → Context → Value → Except RunError Value

/-- Observable events of one or more `run` calls, in order. -/
inductive Event where
  | resolveCalled (pattern : Name)
  | getAtomCalled (pattern : Name)
  | invoked (executionContext : Context) (arg : Value)
  | disposedAtom (atom : AtomImpl)
  | transientRecorded (e : RunError)

/-- The mutable state of a `Lifecycle` together with its `LifecycleCache`
(part_009 lines 24-52 and 59-76) and the counters/log that record its
interactions with the environment. -/
structure LifecycleState where
  pattern : Name
  context : Context
  disposed : Bool
  cachedElement : Option Element
  cachedAtomImpl : Option AtomImpl
  resolveCount : Nat
  getAtomCount : Nat
  invokeCount : Nat
  log : List Event

/-- The state of a freshly constructed lifecycle (empty cache, not disposed),
as built by `Context.find` / `Ingress.externalize`. -/
def initState (pattern : Name) (context : Context) : LifecycleState :=
  { pattern := pattern, context := context, disposed := false,
    cachedElement := none, cachedAtomImpl := none,
    resolveCount := 0, getAtomCount := 0, invokeCount := 0, log := [] }

/-- LifecycleCache.replaceCachedAtomImpl (part_009 lines 43-48): safe-dispose
any currently cached impl, then store the replacement. -/
def replaceCachedAtomImpl (st : LifecycleState) (atomImpl : Option AtomImpl) : LifecycleState :=
  { st with
    cachedAtomImpl := atomImpl,
    log := match st.cachedAtomImpl with
           | some old => st.log ++ [Event.disposedAtom old]
           | none => st.log }

/-- LifecycleCache.replaceCachedElement (part_009 lines 39-42): clear the
cached impl, then store the replacement element. -/
def replaceCachedElement (st : LifecycleState) (element : Option Element) : LifecycleState :=
  { replaceCachedAtomImpl st none with cachedElement := element }

/-- LifecycleCache.clearCache (part_009 lines 49-51). -/
def clearCache (st : LifecycleState) : LifecycleState :=
  replaceCachedElement st none

/-- Lifecycle.dispose (part_009 lines 78-81): set the disposed flag, then
clear the cache. -/
def Lifecycle.dispose (st : LifecycleState) : LifecycleState :=
  clearCache { st with disposed := true }

/-- The stub RetryController (src/unnamed/part_002) always retries; its delay
resolves immediately and `transientError` discards its argument (the model
records the call itself in the event log). -/
def retryControllerShouldRetry : Bool := true

/-- Modelled from the spec: the trace-aware `createContext` is declared by
`DomainBackend` (src/packages/ferrer/src/primitives/backend.ts) with a
`traceVector` override parameter and is the form `Lifecycle.run` calls with
`(parentContext, undefined, trace)`; its implementation is not under src/
(`BasicDomain.createContext` in provider.ts predates the trace refactor).
Per the spec, the child inherits the parent's resolver (no override is
supplied) and carries the supplied trace vector. -/
def createChildContext (parent : Context) (traceVector : TraceVector) : Context :=
  { parent with trace := traceVector }

/-- Outcome of one iteration of the retry loop body. -/
inductive AttemptOutcome where
  | success (v : Value)
  | thrown (e : RunError)
  | retry

/-- The catch block of `Lifecycle.run` (part_009 lines 148-157): any error
invalidates the cache; a transient error is recorded with the retry
controller and triggers a retry via `continue`. A non-transient error is NOT
rethrown — the source has no `throw` after the transience check, despite its
comment — so control falls out of the catch block and the loop continues. -/
def catchStep (st : LifecycleState) (e : RunError) : LifecycleState × AttemptOutcome :=
  let st' := clearCache st
  if isTransientError e then
    ({ st' with log := st'.log ++ [Event.transientRecorded e] }, .retry)
  else
    (st', .retry)

/-- Resolution of the element (part_009 lines 100-116): consult the cache;
otherwise call the resolver, raise `UnresolvedPatternError` on a miss,
re-check disposal, and cache the resolved element. -/
def resolveStep (env : Env) (st : LifecycleState) : LifecycleState × Except RunError Element :=
  match st.cachedElement with
  | some element => (st, .ok element)
  | none =>
    let res := env.resolveBeh st.resolveCount
    let st' := { st with resolveCount := st.resolveCount + 1,
                         log := st.log ++ [Event.resolveCalled st.pattern] }
    match res with
    | none => (st', .error (.unresolvedPattern st'.pattern))
    | some resolution =>
      if st'.disposed then (st', .error .earlyDisposal)
      else (replaceCachedElement st' (some resolution.element), .ok resolution.element)

/-- Obtaining the implementation (part_009 lines 118-130): consult the cache;
otherwise ask the element, re-check disposal (disposing the just-acquired
impl if the race was lost), and cache the impl. -/
def acquireStep (env : Env) (st : LifecycleState) : LifecycleState × Except RunError AtomImpl :=
  match st.cachedAtomImpl with
  | some atomImpl => (st, .ok atomImpl)
  | none =>
    let res := env.getAtomBeh st.getAtomCount
    let st' := { st with getAtomCount := st.getAtomCount + 1,
                         log := st.log ++ [Event.getAtomCalled st.pattern] }
    match res with
    | .error e => (st', .error e)
    | .ok atomImpl =>
      if st'.disposed then
        ({ st' with log := st'.log ++ [Event.disposedAtom atomImpl] }, .error .earlyDisposal)
      else (replaceCachedAtomImpl st' (some atomImpl), .ok atomImpl)

/-- Execution (part_009 lines 132-147): build the child context whose trace
appends one domain-call event naming the resolved element, invoke the impl
with it, then perform just-in-time disposal if the handle was disposed. -/
def executeStep (env : Env) (st : LifecycleState) (element : Element) (arg : Value) :
    LifecycleState × AttemptOutcome :=
  let executionContext :=
    createChildContext st.context (st.context.trace ++ [TraceEvent.domainCall element.name])
  let res := env.invokeBeh st.invokeCount executionContext arg
  let st' := { st with invokeCount := st.invokeCount + 1,
                       log := st.log ++ [Event.invoked executionContext arg] }
  match res with
  | .error e => catchStep st' e
  | .ok result =>
    let st'' := if st'.disposed then replaceCachedAtomImpl st' none else st'
    (st'', .success result)

/-- One iteration of the while-loop body of `Lifecycle.run` (part_009 lines
90-157): await the (immediate) retry delay, throw `EarlyDisposalError` if
disposed (outside the try block, so it reaches the caller), then run the
try block through the three phases, any error of which lands in `catchStep`. -/
def runAttempt (env : Env) (st : LifecycleState) (arg : Value) :
    LifecycleState × AttemptOutcome :=
  if st.disposed then (st, .thrown .earlyDisposal)
  else
    match resolveStep env st with
    | (st1, .error e) => catchStep st1 e
    | (st1, .ok element) =>
      match acquireStep env st1 with
      | (st2, .error e) => catchStep st2 e
      | (st2, .ok _) => executeStep env st2 element arg

/-- The observable result of `run`: a value, a thrown error, or — since the
stub controller never stops retrying — non-termination within the given
number of loop iterations (`fuel`). -/
inductive RunResult where
  | ok (v : Value)
  | error (e : RunError)
  | outOfFuel

/-- Lifecycle.run (part_009 lines 87-163), with an explicit bound `fuel` on
the number of iterations of `while (retryController.shouldRetry())`. If the
loop condition were ever false the accumulated `combinedError` would be
thrown (line 162); with the stub controller this is unreachable. -/
def runFuel (env : Env) : Nat → LifecycleState → Value → LifecycleState × RunResult
  | 0, st, _ => (st, .outOfFuel)
  | fuel + 1, st, arg =>
    if retryControllerShouldRetry then
      match runAttempt env st arg with
      | (st', .success v) => (st', .ok v)
      | (st', .thrown e) => (st', .error e)
      | (st', .retry) => runFuel env fuel st' arg
    else (st, .error .combined)

/-! ## BaseContext and BasicDomain.createContext (provider.ts, claim C8) -/

/-- A resolver as seen by context construction, compared by JS object
identity. -/
structure Resolver where
  id : Nat
deriving DecidableEq

/-- A context as constructed by `BaseContext` (provider.ts lines 71-91): the
final resolver and the stored parent context. -/
inductive BaseContext where
  | mk (resolver : Resolver) (parentContext : Option BaseContext)

/-- The `resolver` property of a BaseContext. -/
def BaseContext.resolver : BaseContext → Resolver
  | .mk r _ => r

/-- The body of `BaseContext`'s constructor (provider.ts lines 78-91):
`finalResolver = resolver ?? parentContext?.resolver`, throwing when both are
absent. Every parent passed in the model is a `BaseContext`, so the
`instanceof BaseContext` test always passes. -/
def mkBaseContext (parentContext : Option BaseContext) (resolver : Option Resolver) :
    Except String BaseContext :=
  let inheritedResolver := parentContext.map BaseContext.resolver
  match resolver.orElse (fun _ => inheritedResolver) with
  | none => .error "Context.constructor(): must provide a parent context or resolver"
  | some finalResolver => .ok (.mk finalResolver parentContext)

/-- A BasicDomain as far as context construction is concerned: its default
resolver (`resolver = internalResolver`, provider.ts line 133). -/
structure BasicDomain where
  resolver : Resolver

/-- BasicDomain.createContext (provider.ts lines 153-158):
`new BaseContext(this, parentContext, resolver ?? this.resolver)`. -/
def BasicDomain.createContext (domain : BasicDomain) (parentContext : Option BaseContext)
    (resolver : Option Resolver) : Except String BaseContext :=
  mkBaseContext parentContext (some (resolver.getD domain.resolver))

/-- Counterexample to C8 as stated: a domain whose default resolver is object
0 and a parent context carrying resolver object 1. `createContext(parent)`
with no override yields a context whose resolver is the domain default 0, not
the parent's resolver 1: the parent's resolver is never consulted, because
the domain always passes `resolver ?? this.resolver` (which is never
undefined) into the BaseContext constructor. -/
theorem createContext_parent_resolver_counterexample :
    BasicDomain.createContext ⟨⟨0⟩⟩ (some (.mk ⟨1⟩ none)) none =
      .ok (.mk ⟨0⟩ (some (.mk ⟨1⟩ none))) ∧
    (BaseContext.mk (⟨1⟩ : Resolver) none).resolver ≠ (⟨0⟩ : Resolver) := by
  exact ⟨rfl, by decide⟩

/-- C8 amended: through `BasicDomain.createContext` the resulting context's
resolver is the explicit override when supplied and otherwise the domain's
default resolver — the parent context's resolver is never inherited on this
path, because the domain always supplies its own resolver as the fallback.
The three-way precedence lives only in the `BaseContext` constructor itself:
called directly with neither a parent nor a resolver it fails with an error,
and with only a parent it inherits the parent's resolver. -/
theorem createContext_resolver_precedence (domain : BasicDomain)
    (parentContext : Option BaseContext) (resolver : Option Resolver) :
    BasicDomain.createContext domain parentContext resolver =
      .ok (.mk (resolver.getD domain.resolver) parentContext) ∧
    mkBaseContext none none =
      .error "Context.constructor(): must provide a parent context or resolver" ∧
    (∀ parent : BaseContext, mkBaseContext (some parent) none =
      .ok (.mk parent.resolver (some parent))) := by
  refine ⟨?_, rfl, fun parent => rfl⟩
  cases resolver <;> rfl

/-! ## FunctionElement.getAtom (provider.ts, claim C9) -/

/-- The state of a `FunctionElement` (provider.ts lines 22-37): the JS object
identity of the wrapped `fn` together with the `requestedPattern` property
most recently written onto it. -/
structure FunctionElementState where
  fnId : Nat
  fnRequestedPattern : Option Name

/-- FunctionElement.getAtom (provider.ts lines 29-36):
`Object.assign(this.fn, { dispose, requestedPattern: pattern })` mutates
`this.fn` in place and returns that same object, so every call yields the
element's one shared fn object with the latest pattern stamped onto it. -/
def FunctionElement.getAtom (el : FunctionElementState) (pattern : Name) :
    FunctionElementState × Nat :=
  ({ el with fnRequestedPattern := some pattern }, el.fnId)

/-- Counterexample to C9 as stated: two acquisitions from the same function
binding (as performed by two distinct Lifecycles) return the same object —
not distinct AtomImpl values — and the second acquisition overwrites the
`requestedPattern` seen by the holder of the first. -/
theorem functionElement_shared_atom_counterexample :
    (FunctionElement.getAtom ⟨7, none⟩ [("svc", .str "a")]).2 =
      (FunctionElement.getAtom
        (FunctionElement.getAtom ⟨7, none⟩ [("svc", .str "a")]).1 [("svc", .str "b")]).2 ∧
    (FunctionElement.getAtom
        (FunctionElement.getAtom ⟨7, none⟩ [("svc", .str "a")]).1
        [("svc", .str "b")]).1.fnRequestedPattern = some [("svc", .str "b")] := by
  exact ⟨rfl, rfl⟩

/-- C9 amended: every `getAtom` on a FunctionElement returns the element's
single underlying fn object, so two handles acquired from the same function
binding hold the same AtomImpl (not distinct ones), and its
`requestedPattern` is the one stamped by the most recent acquisition. -/
theorem functionElement_atom_shared (el : FunctionElementState) (p1 p2 : Name) :
    (FunctionElement.getAtom el p1).2 = el.fnId ∧
    (FunctionElement.getAtom (FunctionElement.getAtom el p1).1 p2).2 = el.fnId ∧
    (FunctionElement.getAtom (FunctionElement.getAtom el p1).1 p2).1.fnRequestedPattern
      = some p2 := by
  exact ⟨rfl, rfl, rfl⟩

/-! ## Claim theorems over the lifecycle model -/

/-- A concrete environment for witnesses: resolution always succeeds with a
fixed element, acquisition yields a fixed impl, every invocation returns
null. -/
def envOk : Env :=
  { resolveBeh := fun _ => some ⟨[("svc", .str "math")], ⟨5, [("svc", .str "math")]⟩⟩,
    getAtomBeh := fun _ => .ok ⟨9⟩,
    invokeBeh := fun _ _ _ => .ok .null }

/-- C3: on a disposed handle, every call to `run` fails immediately with
`EarlyDisposalError` — never with `UnresolvedPatternError` — for every
environment, bound or not; the handle stays disposed, and `dispose` indeed
sets the flag. -/
theorem disposed_handle_fails_early (env : Env) (st : LifecycleState) (arg : Value)
    (fuel : Nat) (hd : st.disposed = true) :
    (runFuel env (fuel + 1) st arg).2 = .error .earlyDisposal ∧
    (runFuel env (fuel + 1) st arg).1.disposed = true ∧
    (∀ p, (runFuel env (fuel + 1) st arg).2 ≠ RunResult.error (.unresolvedPattern p)) ∧
    (∀ st0 : LifecycleState, (Lifecycle.dispose st0).disposed = true) := by
  have hrun : runFuel env (fuel + 1) st arg = (st, .error .earlyDisposal) := by
    rw [runFuel, runAttempt]
    simp [retryControllerShouldRetry, hd]
  refine ⟨by rw [hrun], by rw [hrun]; exact hd, ?_, ?_⟩
  · intro p
    rw [hrun]
    simp
  · intro st0
    simp [Lifecycle.dispose, clearCache, replaceCachedElement, replaceCachedAtomImpl]

/-- Witness for C3: a freshly created then disposed handle fails with
EarlyDisposalError even though the environment would resolve the pattern. -/
theorem disposed_handle_fails_early_witness :
    (runFuel envOk 1 (Lifecycle.dispose (initState [] ⟨0, []⟩)) .null).2 =
      .error .earlyDisposal :=
  (disposed_handle_fails_early envOk (Lifecycle.dispose (initState [] ⟨0, []⟩)) .null 0
    (by simp [Lifecycle.dispose, clearCache, replaceCachedElement,
      replaceCachedAtomImpl])).1

/-- C6: invoking the same handle twice in sequence without intervening
failure or disposal performs resolution and acquisition at most once: both
runs succeed, and after the second run the resolver and the element have
still been consulted exactly once (the second invocation reuses the cached
Element and AtomImpl). -/
theorem second_run_reuses_cache (env : Env) (p : Name) (c : Context)
    (resolution : Resolution) (atomImpl : AtomImpl) (values : Nat → Value)
    (arg1 arg2 : Value)
    (henv1 : env.resolveBeh 0 = some resolution)
    (henv2 : env.getAtomBeh 0 = .ok atomImpl)
    (henv3 : ∀ j ctx a, env.invokeBeh j ctx a = .ok (values j)) :
    (runFuel env 1 (initState p c) arg1).2 = .ok (values 0) ∧
    (runFuel env 1 (initState p c) arg1).1.resolveCount = 1 ∧
    (runFuel env 1 (initState p c) arg1).1.getAtomCount = 1 ∧
    (runFuel env 1 (runFuel env 1 (initState p c) arg1).1 arg2).2 = .ok (values 1) ∧
    (runFuel env 1 (runFuel env 1 (initState p c) arg1).1 arg2).1.resolveCount = 1 ∧
    (runFuel env 1 (runFuel env 1 (initState p c) arg1).1 arg2).1.getAtomCount = 1 := by
  simp [runFuel, runAttempt, resolveStep, acquireStep, executeStep, catchStep,
    replaceCachedElement, replaceCachedAtomImpl, clearCache, createChildContext,
    initState, retryControllerShouldRetry, henv1, henv2, henv3]

/-- Witness for C6 at a concrete environment, pattern and context. -/
theorem second_run_reuses_cache_witness :
    (runFuel envOk 1 (runFuel envOk 1 (initState [("svc", .str "math")] ⟨0, []⟩) .null).1
      .null).1.resolveCount = 1 ∧
    (runFuel envOk 1 (runFuel envOk 1 (initState [("svc", .str "math")] ⟨0, []⟩) .null).1
      .null).1.getAtomCount = 1 := by
  have h := second_run_reuses_cache envOk [("svc", .str "math")] ⟨0, []⟩
    ⟨[("svc", .str "math")], ⟨5, [("svc", .str "math")]⟩⟩ ⟨9⟩ (fun _ => .null) .null .null
    rfl rfl (fun _ _ _ => rfl)
  exact ⟨h.2.2.2.2.1, h.2.2.2.2.2⟩

/-- C7: with the stub RetryController (always retry, zero delay) and a
pattern unresolved on the first resolution attempt but resolvable on the
second, `run` succeeds after exactly one retry: one iteration is not enough,
two are; the first attempt's UnresolvedPatternError is transient, is recorded
with the controller (exactly once, as the log shows), and the caller sees
only the successful result. -/
theorem unresolved_then_resolved_retries_once (env : Env) (p : Name) (c : Context)
    (resolution : Resolution) (atomImpl : AtomImpl) (v : Value) (arg : Value)
    (henv1 : env.resolveBeh 0 = none)
    (henv2 : env.resolveBeh 1 = some resolution)
    (henv3 : env.getAtomBeh 0 = .ok atomImpl)
    (henv4 : ∀ ctx a, env.invokeBeh 0 ctx a = .ok v) :
    (runFuel env 2 (initState p c) arg).2 = .ok v ∧
    (runFuel env 1 (initState p c) arg).2 = .outOfFuel ∧
    isTransientError (.unresolvedPattern p) = true ∧
    (runFuel env 2 (initState p c) arg).1.log =
      [.resolveCalled p, .transientRecorded (.unresolvedPattern p),
       .resolveCalled p, .getAtomCalled p,
       .invoked ⟨c.resolverId, c.trace ++ [.domainCall resolution.element.name]⟩ arg] ∧
    (runFuel env 2 (initState p c) arg).1.resolveCount = 2 := by
  simp [runFuel, runAttempt, resolveStep, acquireStep, executeStep, catchStep,
    replaceCachedElement, replaceCachedAtomImpl, clearCache, createChildContext,
    initState, retryControllerShouldRetry, isTransientError, henv1, henv2, henv3, henv4]

/-- An environment for the C7 witness: unresolved on the first attempt,
resolvable from the second on. -/
def envSecondTry : Env :=
  { resolveBeh := fun i => if i = 0 then none
      else some ⟨[("svc", .str "math")], ⟨5, [("svc", .str "math")]⟩⟩,
    getAtomBeh := fun _ => .ok ⟨9⟩,
    invokeBeh := fun _ _ _ => .ok .null }

/-- Witness for C7 at a concrete environment, pattern and context. -/
theorem unresolved_then_resolved_retries_once_witness :
    (runFuel envSecondTry 2 (initState [("svc", .str "math")] ⟨0, []⟩) .null).2 =
      .ok .null ∧
    (runFuel envSecondTry 1 (initState [("svc", .str "math")] ⟨0, []⟩) .null).2 =
      .outOfFuel := by
  have h := unresolved_then_resolved_retries_once envSecondTry [("svc", .str "math")] ⟨0, []⟩
    ⟨[("svc", .str "math")], ⟨5, [("svc", .str "math")]⟩⟩ ⟨9⟩ .null .null
    rfl rfl rfl (fun _ _ => rfl)
  exact ⟨h.1, h.2.1⟩

/-- C2: a successful `run` invokes the AtomImpl with a newly built child
context whose trace vector is the parent context's vector with exactly one
domain-call event appended, naming the resolved element; the parent context
held by the lifecycle (and hence its vector) is unchanged. For a nested call —
an inner lifecycle created inside the atom body runs in the child context it
received — the inner impl observes a grandchild trace with exactly one more
domain-call event: one event per level of nesting. (Contexts are immutable
values in this model, as in the source, where `concat` copies the array.) -/
theorem child_trace_appends_one_domain_call
    (envOuter envInner : Env) (p pInner : Name) (c : Context)
    (res resInner : Resolution) (a aInner : AtomImpl) (v vInner : Value)
    (arg argInner : Value)
    (h1 : envOuter.resolveBeh 0 = some res)
    (h2 : envOuter.getAtomBeh 0 = .ok a)
    (h3 : ∀ ctx x, envOuter.invokeBeh 0 ctx x = .ok v)
    (h4 : envInner.resolveBeh 0 = some resInner)
    (h5 : envInner.getAtomBeh 0 = .ok aInner)
    (h6 : ∀ ctx x, envInner.invokeBeh 0 ctx x = .ok vInner) :
    (runFuel envOuter 1 (initState p c) arg).2 = .ok v ∧
    (runFuel envOuter 1 (initState p c) arg).1.log =
      [.resolveCalled p, .getAtomCalled p,
       .invoked ⟨c.resolverId, c.trace ++ [.domainCall res.element.name]⟩ arg] ∧
    (runFuel envOuter 1 (initState p c) arg).1.context = c ∧
    (runFuel envInner 1
        (initState pInner ⟨c.resolverId, c.trace ++ [.domainCall res.element.name]⟩)
        argInner).2 = .ok vInner ∧
    (runFuel envInner 1
        (initState pInner ⟨c.resolverId, c.trace ++ [.domainCall res.element.name]⟩)
        argInner).1.log =
      [.resolveCalled pInner, .getAtomCalled pInner,
       .invoked ⟨c.resolverId,
         (c.trace ++ [.domainCall res.element.name]) ++ [.domainCall resInner.element.name]⟩
         argInner] := by
  simp [runFuel, runAttempt, resolveStep, acquireStep, executeStep, catchStep,
    replaceCachedElement, replaceCachedAtomImpl, clearCache, createChildContext,
    initState, retryControllerShouldRetry, h1, h2, h3, h4, h5, h6]

/-- Witness for C2: concrete nested run with explicit trace growth. -/
theorem child_trace_appends_one_domain_call_witness :
    (runFuel envOk 1
        (initState [("svc", .str "inner")] ⟨0, [TraceEvent.domainCall [("svc", .str "math")]]⟩)
        .null).1.log =
      [.resolveCalled [("svc", .str "inner")], .getAtomCalled [("svc", .str "inner")],
       .invoked ⟨0, [TraceEvent.domainCall [("svc", .str "math")],
                     TraceEvent.domainCall [("svc", .str "math")]]⟩ .null] := by
  have h := child_trace_appends_one_domain_call envOk envOk
    [("svc", .str "outer")] [("svc", .str "inner")] ⟨0, []⟩
    ⟨[("svc", .str "math")], ⟨5, [("svc", .str "math")]⟩⟩
    ⟨[("svc", .str "math")], ⟨5, [("svc", .str "math")]⟩⟩
    ⟨9⟩ ⟨9⟩ .null .null .null .null
    rfl rfl (fun _ _ => rfl) rfl rfl (fun _ _ => rfl)
  simpa using h.2.2.2.2

/-- One iteration of the retry loop when resolution and acquisition succeed
but the invocation throws a non-transient error: the cache is cleared, the
error is NOT recorded as transient, and — because the catch block of
`Lifecycle.run` never rethrows (part_009 line 156 is only a comment) — the
outcome is a retry, not a thrown error. -/
theorem runAttempt_fatal (env : Env) (st : LifecycleState) (arg : Value)
    (resolution : Resolution) (atomImpl : AtomImpl) (e : RunError)
    (hfatal : isTransientError e = false)
    (hd : st.disposed = false) (hce : st.cachedElement = none)
    (hca : st.cachedAtomImpl = none)
    (henv1 : env.resolveBeh st.resolveCount = some resolution)
    (henv2 : env.getAtomBeh st.getAtomCount = .ok atomImpl)
    (henv3 : ∀ ctx a, env.invokeBeh st.invokeCount ctx a = .error e) :
    (runAttempt env st arg).2 = AttemptOutcome.retry ∧
    (runAttempt env st arg).1.disposed = false ∧
    (runAttempt env st arg).1.cachedElement = none ∧
    (runAttempt env st arg).1.cachedAtomImpl = none ∧
    (runAttempt env st arg).1.invokeCount = st.invokeCount + 1 := by
  simp [runAttempt, resolveStep, acquireStep, executeStep, catchStep,
    replaceCachedElement, replaceCachedAtomImpl, clearCache, createChildContext,
    hd, hce, hca, henv1, henv2, henv3, hfatal]

/-- C1 (code bug): when the invocation always throws a structurally
non-transient (fatal) error, `Lifecycle.run` clears the cache — that much of
the claim holds — but the error never propagates to the caller: the catch
block of part_009 has no rethrow after the transience check, so with the stub
RetryController the loop retries forever, re-invoking the atom once per
iteration (the final invoke count grows with the fuel, and the result is
never `RunResult.error e`). -/
theorem fatal_error_swallowed_and_retried (env : Env) (resolution : Resolution)
    (atomImpl : AtomImpl) (e : RunError)
    (hfatal : isTransientError e = false)
    (henv1 : ∀ i, env.resolveBeh i = some resolution)
    (henv2 : ∀ i, env.getAtomBeh i = .ok atomImpl)
    (henv3 : ∀ i ctx a, env.invokeBeh i ctx a = .error e) :
    ∀ (fuel : Nat) (st : LifecycleState) (arg : Value),
      st.disposed = false → st.cachedElement = none → st.cachedAtomImpl = none →
      (runFuel env fuel st arg).2 = .outOfFuel ∧
      (runFuel env fuel st arg).1.invokeCount = st.invokeCount + fuel ∧
      (runFuel env fuel st arg).1.cachedElement = none ∧
      (runFuel env fuel st arg).1.cachedAtomImpl = none := by
  intro fuel
  induction fuel with
  | zero =>
    intro st arg h1 h2 h3
    exact ⟨rfl, rfl, h2, h3⟩
  | succ n ih =>
    intro st arg h1 h2 h3
    obtain ⟨ho, hd2, hce2, hca2, hic2⟩ := runAttempt_fatal env st arg resolution atomImpl e
      hfatal h1 h2 h3 (henv1 _) (henv2 _) (henv3 _)
    rw [runFuel]
    simp only [retryControllerShouldRetry, if_true]
    rcases hr : runAttempt env st arg with ⟨st2, o⟩
    rw [hr] at ho hd2 hce2 hca2 hic2
    cases o with
    | success v => simp at ho
    | thrown e2 => simp at ho
    | retry =>
      obtain ⟨ha, hb, hc, hdd⟩ := ih st2 arg hd2 hce2 hca2
      refine ⟨ha, ?_, hc, hdd⟩
      show (runFuel env n st2 arg).1.invokeCount = st.invokeCount + (n + 1)
      rw [hb]
      have hic3 : st2.invokeCount = st.invokeCount + 1 := hic2
      omega

/-- An environment whose invocation always throws a fatal application error
(`new Error(...)` with no transience marker). -/
def envFatal : Env :=
  { resolveBeh := fun _ => some ⟨[("svc", .str "math")], ⟨5, [("svc", .str "math")]⟩⟩,
    getAtomBeh := fun _ => .ok ⟨9⟩,
    invokeBeh := fun _ _ _ => .error (.appError 0 false) }

/-- Witness for C1: three loop iterations on a concrete handle whose atom
always throws fatally — no error surfaces and the atom was re-invoked three
times. -/
theorem fatal_error_swallowed_and_retried_witness :
    (runFuel envFatal 3 (initState [("svc", .str "math")] ⟨0, []⟩) .null).2 = .outOfFuel ∧
    (runFuel envFatal 3 (initState [("svc", .str "math")] ⟨0, []⟩) .null).1.invokeCount = 3 := by
  have h := fatal_error_swallowed_and_retried envFatal
    ⟨[("svc", .str "math")], ⟨5, [("svc", .str "math")]⟩⟩ ⟨9⟩ (.appError 0 false)
    rfl (fun _ => rfl) (fun _ => rfl) (fun _ _ _ => rfl)
    3 (initState [("svc", .str "math")] ⟨0, []⟩) .null rfl rfl rfl
  refine ⟨h.1, ?_⟩
  have h2 := h.2.1
  simpa [initState] using h2

end Ferrer
